import Mathlib

/-
Verification of the hardware-bitcoin-wallet firmware sources against their
natural-language specification.

The embedding covers:
- storage_common.h : the non-volatile storage layout constants;
- user_interface.c : the pending-output store, the user-approval dialogue
  (askUser), and the backup-seed writer (writeBackupSeed);
- the PROTOCOL description appended to the sources : packet framing and the
  command catalogue.

Machine integers are modelled as Nat; bytes are Nat values below 256.
C functions returning error codes are modelled as functions returning Nat
(0 = ok).  A C local variable that may be read before it is written is
modelled as an Option, with none standing for the indeterminate value.
-/

namespace HWallet

/-! ## Storage layout (storage_common.h) -/

/-- Length of a wallet record, from storage_common.h. -/
def WALLET_RECORD_LENGTH : Nat := 160

/-- Address where the persistent entropy pool is located. -/
def ADDRESS_ENTROPY_POOL : Nat := 64

/-- Address where the checksum of the persistent entropy pool is located. -/
def ADDRESS_POOL_CHECKSUM : Nat := 96

/-- Address of the wallet staging area. -/
def ADDRESS_WALLET_STAGING : Nat := 128

/-- Address where wallet records start, defined in storage_common.h as the
expression ADDRESS_WALLET_STAGING + WALLET_RECORD_LENGTH. -/
def ADDRESS_WALLET_START : Nat := ADDRESS_WALLET_STAGING + WALLET_RECORD_LENGTH

/-- Modelled from the spec: the per-record addressing rule.  The wallet
record management code (wallet.c) is not among the given sources; the spec
states that records sit at start + index * record_length. -/
def walletRecordAddress (i : Nat) : Nat :=
  ADDRESS_WALLET_START + i * WALLET_RECORD_LENGTH

/-! ## Packet framing (PROTOCOL description in the sources)

Modelled from the spec: the framing code itself (stream_comm.c) is not among
the given sources; the PROTOCOL text appended to user_interface.c defines a
packet as one type byte, a 4-byte little-endian length, and exactly length
value bytes. -/

/-- A decoded packet: the command type byte and the value bytes. -/
structure Packet where
  ptype : Nat
  value : List Nat
  deriving Repr, DecidableEq

/-- Little-endian encoding of a 32-bit length into four bytes. -/
def toLE4 (n : Nat) : List Nat :=
  [n % 256, n / 256 % 256, n / 65536 % 256, n / 16777216 % 256]

/-- Value of four little-endian bytes. -/
def fromLE4 (b0 b1 b2 b3 : Nat) : Nat :=
  b0 + 256 * b1 + 65536 * b2 + 16777216 * b3

/-- Serialise a packet: type byte, 4-byte little-endian length of the value,
then the value bytes. -/
def encodePacket (p : Packet) : List Nat :=
  p.ptype :: (toLE4 p.value.length ++ p.value)

/-- Parse a byte list as a packet: it must consist of a type byte, four
length bytes, and exactly as many value bytes as the length declares. -/
def decodePacket (bs : List Nat) : Option Packet :=
  match bs with
  | t :: b0 :: b1 :: b2 :: b3 :: rest =>
      if rest.length = fromLE4 b0 b1 b2 b3 then some ⟨t, rest⟩ else none
  | _ => none

/-! ## Command catalogue (PROTOCOL description in the sources) -/

/-- The fixed-payload commands of the catalogue named by the claim. -/
inductive CatalogueCommand where
  | createWallet
  | loadWallet
  | restoreWallet
  | formatStorage
  | changeKey
  | changeName
  | backupWallet
  | getAddress
  deriving Repr, DecidableEq

/-- The command type byte of each catalogue command, from the PROTOCOL text. -/
def commandTypeByte : CatalogueCommand → Nat
  | .createWallet => 0x04
  | .loadWallet => 0x0B
  | .restoreWallet => 0x12
  | .formatStorage => 0x0D
  | .changeKey => 0x0E
  | .changeName => 0x0F
  | .backupWallet => 0x11
  | .getAddress => 0x09

/-- The declared payload length of each command, from the length lines of the
PROTOCOL text. -/
def declaredPayloadLength : CatalogueCommand → Nat
  | .createWallet => 77
  | .loadWallet => 36
  | .restoreWallet => 141
  | .formatStorage => 32
  | .changeKey => 32
  | .changeName => 40
  | .backupWallet => 2
  | .getAddress => 4

/-- The field widths of each command payload, from the field descriptions of
the PROTOCOL text: wallet number 4, hidden flag 1, encryption key 32,
wallet name 40, seed 64, entropy 32, encrypt flag 1, device id 1,
address handle 4. -/
def commandFieldWidths : CatalogueCommand → List Nat
  | .createWallet => [4, 1, 32, 40]
  | .loadWallet => [4, 32]
  | .restoreWallet => [4, 1, 32, 40, 64]
  | .formatStorage => [32]
  | .changeKey => [32]
  | .changeName => [40]
  | .backupWallet => [1, 1]
  | .getAddress => [4]

/-! ## User interface state (user_interface.c)

The pending-output store: list_amount, list_address (each MAX_OUTPUTS slots),
list_index, transaction_fee_set and transaction_fee_amount.  The first
list_index filled slots are modelled as a list of amount/address pairs. -/

/-- Maximum number of address/amount pairs that can be stored, from
user_interface.c. -/
def MAX_OUTPUTS : Nat := 20

/-- Modelled from the spec: TEXT_AMOUNT_LENGTH is defined in baseconv.h,
which is not among the given sources.  Its exact value does not matter to
any claim; only that stored amount text is truncated to this buffer size. -/
def TEXT_AMOUNT_LENGTH : Nat := 22

/-- Modelled from the spec: TEXT_ADDRESS_LENGTH is defined in baseconv.h,
which is not among the given sources. -/
def TEXT_ADDRESS_LENGTH : Nat := 36

/-- Effect of strncpy into a buffer of size n followed by forcing a null
terminator at position n - 1: the stored string is the first n - 1
characters of the source. -/
def strncpyStore (n : Nat) (s : String) : String := s.take (n - 1)

/-- The mutable state of user_interface.c: the filled amount/address slots
in order, and the transaction fee flag and text. -/
structure UIState where
  outputs : List (String × String)
  transaction_fee_set : Bool
  transaction_fee_amount : String
  deriving Repr, DecidableEq

/-- The newOutputSeen function: refuse with error 1 when list_index has
reached MAX_OUTPUTS, otherwise copy the truncated pair into the next free
slot and advance list_index.  Returns the C return value and the new state. -/
def newOutputSeen (text_amount text_address : String) (s : UIState) :
    Nat × UIState :=
  if s.outputs.length ≥ MAX_OUTPUTS then
    (1, s)
  else
    (0, { s with outputs := s.outputs ++
            [(strncpyStore TEXT_AMOUNT_LENGTH text_amount,
              strncpyStore TEXT_ADDRESS_LENGTH text_address)] })

/-- The setTransactionFee function: store the truncated fee text and set the
fee flag. -/
def setTransactionFee (text_amount : String) (s : UIState) : UIState :=
  { s with transaction_fee_set := true,
           transaction_fee_amount := strncpyStore TEXT_AMOUNT_LENGTH text_amount }

/-- The clearOutputsSeen function: reset list_index and the fee flag. -/
def clearOutputsSeen (s : UIState) : UIState :=
  { s with outputs := [], transaction_fee_set := false }

/-! ## The askUser dialogue (user_interface.c)

Button presses are modelled as an oracle p : Nat → Bool giving the result of
the k-th waitForButtonPress call of the invocation (true = cancel pressed,
so waitForButtonPress returns 1; false = accept, returns 0).  Display output
is modelled as the list of confirmation prompts shown, each identified by
which question it asks. -/

/-- A confirmation prompt shown on the display, identified by its question. -/
inductive Prompt where
  | nukeWallet
  | newAddress
  | output (amount address : String)
  | fee (amount : String)
  | formatFirst
  | formatSecond
  | formatThird
  | changeName
  | backupWallet
  | restoreWallet
  | unknownCommand
  deriving Repr, DecidableEq

/-- The display prompts produced by approving a list of outputs in order. -/
def outputPrompts (outs : List (String × String)) : List Prompt :=
  outs.map (fun o => Prompt.output o.1 o.2)

/-- Modelled from the spec: the AskUserCommandEnum values are declared in
hwinterface.h, which is not among the given sources.  Only distinctness of
the seven recognised values matters to the dispatch. -/
def ASKUSER_NUKE_WALLET : Nat := 1

/-- Modelled from the spec: see ASKUSER_NUKE_WALLET. -/
def ASKUSER_NEW_ADDRESS : Nat := 2

/-- Modelled from the spec: see ASKUSER_NUKE_WALLET. -/
def ASKUSER_SIGN_TRANSACTION : Nat := 3

/-- Modelled from the spec: see ASKUSER_NUKE_WALLET. -/
def ASKUSER_FORMAT : Nat := 4

/-- Modelled from the spec: see ASKUSER_NUKE_WALLET. -/
def ASKUSER_CHANGE_NAME : Nat := 5

/-- Modelled from the spec: see ASKUSER_NUKE_WALLET. -/
def ASKUSER_BACKUP_WALLET : Nat := 6

/-- Modelled from the spec: see ASKUSER_NUKE_WALLET. -/
def ASKUSER_RESTORE_WALLET : Nat := 7

/-- The output-approval loop of the ASKUSER_SIGN_TRANSACTION branch.
Iterates over the pending outputs, prompting for each; r is set by each
iteration and the loop breaks on the first denial.  Returns the value of the
C local r after the loop (none when the loop body never ran, leaving r
uninitialised), the index of the next unconsumed button press, and the
prompts shown. -/
def signLoop (p : Nat → Bool) : Nat → List (String × String) →
    Option Bool × Nat × List Prompt
  | k, [] => (none, k, [])
  | k, o :: rest =>
      if p k then
        (some true, k + 1, [Prompt.output o.1 o.2])
      else
        let res := signLoop p (k + 1) rest
        (some (res.1.getD false), res.2.1, Prompt.output o.1 o.2 :: res.2.2)

/-- The ASKUSER_SIGN_TRANSACTION branch of askUser: run the output loop,
then, if r is clear and a fee is set, ask once about the fee.  When the loop
left r uninitialised the C code reads r in the condition of the fee test and
in the return statement, so the result is indeterminate (none). -/
def askUserSign (s : UIState) (p : Nat → Bool) : Option Nat × List Prompt :=
  let res := signLoop p 0 s.outputs
  match res.1 with
  | none => (none, res.2.2)
  | some true => (some 1, res.2.2)
  | some false =>
      if s.transaction_fee_set then
        (some (cond (p res.2.1) 1 0),
         res.2.2 ++ [Prompt.fee s.transaction_fee_amount])
      else
        (some 0, res.2.2)

/-- The ASKUSER_FORMAT branch of askUser: three nested confirmations; a
denial at any prompt skips the remaining ones and yields denial. -/
def askUserFormat (p : Nat → Bool) : Option Nat × List Prompt :=
  if p 0 then
    (some 1, [Prompt.formatFirst])
  else if p 1 then
    (some 1, [Prompt.formatFirst, Prompt.formatSecond])
  else
    (some (cond (p 2) 1 0),
     [Prompt.formatFirst, Prompt.formatSecond, Prompt.formatThird])

/-- The askUser function: dispatch on the command, show the prompts of the
matching branch, and return the C return value r (none when r is returned
uninitialised) together with the prompts shown.  The unknown-command branch
waits for a button press and then denies unconditionally. -/
def askUser (command : Nat) (s : UIState) (p : Nat → Bool) :
    Option Nat × List Prompt :=
  if command = ASKUSER_NUKE_WALLET then
    (some (cond (p 0) 1 0), [Prompt.nukeWallet])
  else if command = ASKUSER_NEW_ADDRESS then
    (some (cond (p 0) 1 0), [Prompt.newAddress])
  else if command = ASKUSER_SIGN_TRANSACTION then
    askUserSign s p
  else if command = ASKUSER_FORMAT then
    askUserFormat p
  else if command = ASKUSER_CHANGE_NAME then
    (some (cond (p 0) 1 0), [Prompt.changeName])
  else if command = ASKUSER_BACKUP_WALLET then
    (some (cond (p 0) 1 0), [Prompt.backupWallet])
  else if command = ASKUSER_RESTORE_WALLET then
    (some (cond (p 0) 1 0), [Prompt.restoreWallet])
  else
    (some 1, [Prompt.unknownCommand])

/-! ## writeBackupSeed (user_interface.c)

The seed bytes, the encryption flag and the hexadecimal formatting counters
(byte_counter, line_number) influence only the text drawn on the display,
never the control flow, so the model tracks the return value and the number
of confirmation prompts (waitForButtonPress calls).  Whether the display
cursor reaches the end after drawing byte i is hardware state, modelled as
the oracle cend : Nat → Bool. -/

/-- Modelled from the spec: SEED_LENGTH is defined in hwinterface.h, which
is not among the given sources; the spec gives the backup seed as 64 bytes. -/
def SEED_LENGTH : Nat := 64

/-- The display loop of writeBackupSeed over the remaining seed byte
indices: after drawing byte i, if the display cursor is at the end a
confirmation prompt is shown; cancel aborts.  Returns whether the user
cancelled, and the index of the next unconsumed button press. -/
def backupLoop (p cend : Nat → Bool) : Nat → List Nat → Bool × Nat
  | k, [] => (false, k)
  | k, i :: rest =>
      if cend i then
        if p k then (true, k + 1)
        else backupLoop p cend (k + 1) rest
      else backupLoop p cend k rest

/-- The writeBackupSeed function: reject any destination device other than 0
with return value 1 before touching the display; otherwise show the
encrypted/not-encrypted notice (one prompt), page through the seed with a
prompt at each full display, and end with one final prompt.  Cancel at any
prompt returns 2; full acceptance returns 0.  The result is the C return
value together with the number of prompts shown.  The seed and
is_encrypted arguments affect only display text. -/
def writeBackupSeed (seed : Nat → Nat) (is_encrypted : Bool)
    (destination_device : Nat) (p cend : Nat → Bool) : Nat × Nat :=
  if destination_device ≠ 0 then
    (1, 0)
  else if p 0 then
    (2, 1)
  else
    let lr := backupLoop p cend 1 (List.range SEED_LENGTH)
    if lr.1 then (2, lr.2)
    else if p lr.2 then (2, lr.2 + 1)
    else (0, lr.2 + 1)

/-! ## Staged wallet-record update (storage manager)

Modelled from the spec: the wallet record update routine lives in wallet.c,
which is not among the given sources; storage_common.h only declares the
staging address.  The spec describes the atomic-update primitive as: copy
the new record in full into staging, verify it, then bulk-copy staging into
the final slot, the bulk copy being the only write to the final slot.  A
power loss is modelled as executing only a prefix of the update step list. -/

/-- Non-volatile storage state: the staging area bytes and, for each wallet
record slot, its bytes. -/
structure NVState where
  staging : Nat → Nat
  slots : Nat → Nat → Nat

/-- One primitive step of the staged update protocol. -/
inductive UpdateStep where
  | writeStagingByte (j : Nat) (b : Nat)
  | verifyStaging
  | copyStagingToSlot (i : Nat)

/-- Effect of one update step on storage.  Verification reads but does not
write; the bulk copy replaces the whole record slot with the staging
contents in one step. -/
def applyStep (s : NVState) : UpdateStep → NVState
  | .writeStagingByte j b =>
      { s with staging := fun m => if m = j then b else s.staging m }
  | .verifyStaging => s
  | .copyStagingToSlot i =>
      { s with slots := fun m => if m = i then s.staging else s.slots m }

/-- Run a list of update steps from a storage state. -/
def runSteps (s : NVState) : List UpdateStep → NVState
  | [] => s
  | st :: rest => runSteps (applyStep s st) rest

/-- The write phase of a staged update: every byte of the new record is
written into the staging area. -/
def stagingWrites (newRec : Nat → Nat) : List UpdateStep :=
  (List.range WALLET_RECORD_LENGTH).map
    (fun j => UpdateStep.writeStagingByte j (newRec j))

/-- The staged update of record slot i to the new record newRec: write every
byte of the new record into staging, verify the staged copy, then bulk-copy
staging into the final slot. -/
def stagedUpdateSteps (i : Nat) (newRec : Nat → Nat) : List UpdateStep :=
  stagingWrites newRec
  ++ [UpdateStep.verifyStaging, UpdateStep.copyStagingToSlot i]

/-! ## Theorems -/

/-- Claim C5: the non-volatile storage layout constants satisfy the
specified partition: entropy pool at 64, pool checksum at 96, staging area
at 128 with length equal to the 160-byte record length (a multiple of 16),
and wallet record i at (128 + record length) + i * record length. -/
theorem layout_partition_correct :
    ADDRESS_ENTROPY_POOL = 64 ∧
    ADDRESS_POOL_CHECKSUM = 96 ∧
    ADDRESS_WALLET_STAGING = 128 ∧
    WALLET_RECORD_LENGTH = 160 ∧
    WALLET_RECORD_LENGTH % 16 = 0 ∧
    ADDRESS_WALLET_STAGING % 16 = 0 ∧
    ADDRESS_WALLET_START - ADDRESS_WALLET_STAGING = WALLET_RECORD_LENGTH ∧
    ∀ i : Nat, walletRecordAddress i =
      (128 + WALLET_RECORD_LENGTH) + i * WALLET_RECORD_LENGTH :=
  ⟨rfl, rfl, rfl, rfl, by decide, by decide, by decide, fun i => rfl⟩

/-- Claim C7: every declared fixed payload length in the command catalogue
equals the sum of the field widths given for that command, with the
individual values named by the claim. -/
theorem catalogue_lengths_correct :
    declaredPayloadLength .createWallet = 77 ∧
    declaredPayloadLength .loadWallet = 36 ∧
    declaredPayloadLength .restoreWallet = 141 ∧
    declaredPayloadLength .formatStorage = 32 ∧
    declaredPayloadLength .changeKey = 32 ∧
    declaredPayloadLength .changeName = 40 ∧
    declaredPayloadLength .backupWallet = 2 ∧
    declaredPayloadLength .getAddress = 4 ∧
    ∀ c : CatalogueCommand,
      declaredPayloadLength c = (commandFieldWidths c).sum :=
  ⟨rfl, rfl, rfl, rfl, rfl, rfl, rfl, rfl, fun c => by cases c <;> rfl⟩

/-- Little-endian round trip: re-encoding the value of four bytes gives the
same four bytes back. -/
theorem toLE4_fromLE4 (b0 b1 b2 b3 : Nat) (h0 : b0 < 256) (h1 : b1 < 256)
    (h2 : b2 < 256) (h3 : b3 < 256) :
    toLE4 (fromLE4 b0 b1 b2 b3) = [b0, b1, b2, b3] := by
  simp only [toLE4, fromLE4, List.cons.injEq, and_true]
  refine ⟨?_, ?_, ?_, ?_⟩ <;> omega

/-- Claim C4: for every byte list that decodes as a packet (type byte,
4-byte little-endian length, exactly that many value bytes), encoding the
decoded packet reproduces the bytes exactly, and the encoding carries
exactly its value bytes after the 5 header bytes. -/
theorem packet_roundtrip (bs : List Nat) (pk : Packet)
    (hbytes : ∀ b ∈ bs, b < 256)
    (hdec : decodePacket bs = some pk) :
    encodePacket pk = bs ∧ (encodePacket pk).length = 5 + pk.value.length := by
  rcases bs with _ | ⟨t, _ | ⟨b0, _ | ⟨b1, _ | ⟨b2, _ | ⟨b3, rest⟩⟩⟩⟩⟩ <;>
    simp only [decodePacket, reduceCtorEq] at hdec
  rw [Option.ite_none_right_eq_some, Option.some.injEq] at hdec
  obtain ⟨hlen, rfl⟩ := hdec
  have h0 : b0 < 256 := hbytes b0 (by simp)
  have h1 : b1 < 256 := hbytes b1 (by simp)
  have h2 : b2 < 256 := hbytes b2 (by simp)
  have h3 : b3 < 256 := hbytes b3 (by simp)
  constructor
  · simp only [encodePacket, hlen, toLE4_fromLE4 b0 b1 b2 b3 h0 h1 h2 h3]
    rfl
  · simp [encodePacket, toLE4]
    omega

/-- Concrete instance of the packet round trip. -/
theorem packet_roundtrip_witness :
    encodePacket ⟨7, [10, 20]⟩ = [7, 2, 0, 0, 0, 10, 20] :=
  (packet_roundtrip [7, 2, 0, 0, 0, 10, 20] ⟨7, [10, 20]⟩ (by decide)
    (by decide)).1

/-- Claim C3: newOutputSeen returns the full error 1 and leaves the state
untouched whenever the stored pair count has reached MAX_OUTPUTS; with fewer
pairs stored it returns 0, appends the pair after the existing pairs
(truncated to the text buffer sizes), increments the count by one, and
leaves every previously stored pair in place. -/
theorem newOutputSeen_correct (text_amount text_address : String)
    (s : UIState) :
    (s.outputs.length ≥ MAX_OUTPUTS →
      newOutputSeen text_amount text_address s = (1, s)) ∧
    (s.outputs.length < MAX_OUTPUTS →
      (newOutputSeen text_amount text_address s).1 = 0 ∧
      (newOutputSeen text_amount text_address s).2.outputs =
        s.outputs ++ [(strncpyStore TEXT_AMOUNT_LENGTH text_amount,
                       strncpyStore TEXT_ADDRESS_LENGTH text_address)] ∧
      (newOutputSeen text_amount text_address s).2.outputs.length =
        s.outputs.length + 1 ∧
      (newOutputSeen text_amount text_address s).2.outputs.take
        s.outputs.length = s.outputs ∧
      (newOutputSeen text_amount text_address s).2.transaction_fee_set =
        s.transaction_fee_set) := by
  constructor
  · intro h
    simp [newOutputSeen, h]
  · intro h
    have hne : ¬ s.outputs.length ≥ MAX_OUTPUTS := by omega
    simp [newOutputSeen, hne, List.take_left]

/-- Concrete instance of the newOutputSeen behaviour below capacity. -/
theorem newOutputSeen_correct_witness :
    (newOutputSeen "0.01" "1abc" ⟨[], false, ""⟩).1 = 0 :=
  ((newOutputSeen_correct "0.01" "1abc" ⟨[], false, ""⟩).2 (by decide)).1

/-- The askUser dispatch sends the format command to the format branch. -/
theorem askUser_format_eq (s : UIState) (p : Nat → Bool) :
    askUser ASKUSER_FORMAT s p = askUserFormat p := rfl

/-- Claim C9: askUser with the format command accepts only after three
consecutive accepted confirmations; a denial at the first, second or third
prompt returns denial at once, showing no further prompt. -/
theorem askUser_format_correct (s : UIState) (p : Nat → Bool) :
    (p 0 = true →
      askUser ASKUSER_FORMAT s p = (some 1, [Prompt.formatFirst])) ∧
    (p 0 = false → p 1 = true →
      askUser ASKUSER_FORMAT s p =
        (some 1, [Prompt.formatFirst, Prompt.formatSecond])) ∧
    (p 0 = false → p 1 = false →
      askUser ASKUSER_FORMAT s p =
        (some (cond (p 2) 1 0),
         [Prompt.formatFirst, Prompt.formatSecond, Prompt.formatThird])) ∧
    ((askUser ASKUSER_FORMAT s p).1 = some 0 ↔
      p 0 = false ∧ p 1 = false ∧ p 2 = false) := by
  rw [askUser_format_eq]
  cases h0 : p 0 <;> cases h1 : p 1 <;> cases h2 : p 2 <;>
    simp [askUserFormat, h0, h1, h2]

/-- Concrete instance of the format dialogue: accepting all three prompts
yields acceptance. -/
theorem askUser_format_correct_witness :
    askUser ASKUSER_FORMAT ⟨[], false, ""⟩ (fun _ => false) =
      (some 0, [Prompt.formatFirst, Prompt.formatSecond, Prompt.formatThird]) := by
  have h := (askUser_format_correct ⟨[], false, ""⟩ (fun _ => false)).2.2.1
    rfl rfl
  simpa using h

/-- Claim C10: askUser with any command value outside the seven recognised
ones denies unconditionally, whatever the button presses. -/
theorem askUser_unknown_denies (command : Nat) (s : UIState) (p : Nat → Bool)
    (h1 : command ≠ ASKUSER_NUKE_WALLET)
    (h2 : command ≠ ASKUSER_NEW_ADDRESS)
    (h3 : command ≠ ASKUSER_SIGN_TRANSACTION)
    (h4 : command ≠ ASKUSER_FORMAT)
    (h5 : command ≠ ASKUSER_CHANGE_NAME)
    (h6 : command ≠ ASKUSER_BACKUP_WALLET)
    (h7 : command ≠ ASKUSER_RESTORE_WALLET) :
    askUser command s p = (some 1, [Prompt.unknownCommand]) := by
  simp [askUser, h1, h2, h3, h4, h5, h6, h7]

/-- Concrete instance of the unknown-command denial. -/
theorem askUser_unknown_denies_witness :
    askUser 42 ⟨[], false, ""⟩ (fun _ => false) =
      (some 1, [Prompt.unknownCommand]) :=
  askUser_unknown_denies 42 ⟨[], false, ""⟩ (fun _ => false) (by decide)
    (by decide) (by decide) (by decide) (by decide) (by decide) (by decide)

/-- Claim C8 evaluation: with no pending outputs and no fee set, the
sign-transaction branch of askUser returns the local r without any prompt
having assigned it, so the C return value is the indeterminate value of an
uninitialised variable (modelled as none). -/
theorem askUser_sign_uninitialised :
    askUser ASKUSER_SIGN_TRANSACTION ⟨[], false, ""⟩ (fun _ => false) =
      (none, []) := rfl

/-- Unfolding the output loop one step when the user accepts. -/
theorem signLoop_cons_accept (p : Nat → Bool) (k : Nat) (o : String × String)
    (rest : List (String × String)) (hk : p k = false) :
    signLoop p k (o :: rest) =
      (some ((signLoop p (k + 1) rest).1.getD false),
       (signLoop p (k + 1) rest).2.1,
       Prompt.output o.1 o.2 :: (signLoop p (k + 1) rest).2.2) := by
  simp [signLoop, hk]

/-- Unfolding the output loop one step when the user denies: the loop breaks
at once. -/
theorem signLoop_cons_deny (p : Nat → Bool) (k : Nat) (o : String × String)
    (rest : List (String × String)) (hk : p k = true) :
    signLoop p k (o :: rest) = (some true, k + 1, [Prompt.output o.1 o.2]) := by
  simp [signLoop, hk]

/-- When every remaining output is accepted, the loop visits each output
once in order, ends with r clear, and consumes one press per output. -/
theorem signLoop_all_accept (p : Nat → Bool) :
    ∀ (outs : List (String × String)) (k : Nat), outs ≠ [] →
      (∀ j, j < outs.length → p (k + j) = false) →
      signLoop p k outs = (some false, k + outs.length, outputPrompts outs) := by
  intro outs
  induction outs with
  | nil => intro k h _; exact absurd rfl h
  | cons o rest ih =>
      intro k _ h
      have hk : p k = false := by simpa using h 0 (by simp)
      rw [signLoop_cons_accept p k o rest hk]
      cases rest with
      | nil => simp [signLoop, outputPrompts]
      | cons o2 r2 =>
          have hrest : ∀ j, j < (o2 :: r2).length → p (k + 1 + j) = false := by
            intro j hj
            have h2 := h (j + 1) (by simp at hj ⊢; omega)
            have heq : k + (j + 1) = k + 1 + j := by omega
            rwa [heq] at h2
          rw [ih (k + 1) (by simp) hrest]
          simp only [Option.getD_some, List.length_cons, outputPrompts,
            List.map_cons, Prod.mk.injEq, true_and]
          constructor
          · omega
          · trivial

/-- When the first denial happens at output j, the loop shows outputs 0
through j, breaks there with r set, and consumes j + 1 presses. -/
theorem signLoop_first_deny (p : Nat → Bool) :
    ∀ (outs : List (String × String)) (k j : Nat),
      j < outs.length → p (k + j) = true →
      (∀ m, m < j → p (k + m) = false) →
      signLoop p k outs =
        (some true, k + j + 1, outputPrompts (outs.take (j + 1))) := by
  intro outs
  induction outs with
  | nil => intro k j hj; simp at hj
  | cons o rest ih =>
      intro k j hj hd hm
      cases j with
      | zero =>
          have hk : p k = true := by simpa using hd
          rw [signLoop_cons_deny p k o rest hk]
          simp [outputPrompts]
      | succ j2 =>
          have hk : p k = false := by simpa using hm 0 (by omega)
          have hj2 : j2 < rest.length := by simp at hj; omega
          have hd2 : p (k + 1 + j2) = true := by
            have heq : k + (j2 + 1) = k + 1 + j2 := by omega
            rwa [heq] at hd
          have hm2 : ∀ m, m < j2 → p (k + 1 + m) = false := by
            intro m hma
            have h2 := hm (m + 1) (by omega)
            have heq : k + (m + 1) = k + 1 + m := by omega
            rwa [heq] at h2
          rw [signLoop_cons_accept p k o rest hk, ih (k + 1) j2 hj2 hd2 hm2]
          simp only [Option.getD_some, outputPrompts, List.take_succ_cons,
            List.map_cons, Prod.mk.injEq, true_and]
          constructor
          · omega
          · trivial

/-- The askUser dispatch sends the sign-transaction command to the
sign-transaction branch. -/
theorem askUser_sign_eq (s : UIState) (p : Nat → Bool) :
    askUser ASKUSER_SIGN_TRANSACTION s p = askUserSign s p := rfl

/-- Claim C2: in a sign-transaction approval session the user is prompted
once per pending output in order; the first denial, at any output j, ends
the dialogue at once with denial, showing no later output prompt and no fee
prompt, whatever the earlier approvals were; when every output is approved,
the fee prompt is shown exactly when a fee was set, and the overall result
is acceptance exactly when every output and, if set, the fee were accepted.
The capacity hypothesis reflects the reachable states of the pending-output
store, which newOutputSeen bounds by MAX_OUTPUTS. -/
theorem askUser_sign_correct (s : UIState) (p : Nat → Bool)
    (hcap : s.outputs.length ≤ MAX_OUTPUTS) :
    (∀ j, j < s.outputs.length → p j = true → (∀ m, m < j → p m = false) →
      askUser ASKUSER_SIGN_TRANSACTION s p =
        (some 1, outputPrompts (s.outputs.take (j + 1)))) ∧
    ((∀ j, j < s.outputs.length → p j = false) → s.outputs ≠ [] →
      s.transaction_fee_set = false →
      askUser ASKUSER_SIGN_TRANSACTION s p =
        (some 0, outputPrompts s.outputs)) ∧
    ((∀ j, j < s.outputs.length → p j = false) → s.outputs ≠ [] →
      s.transaction_fee_set = true →
      askUser ASKUSER_SIGN_TRANSACTION s p =
        (some (cond (p s.outputs.length) 1 0),
         outputPrompts s.outputs ++ [Prompt.fee s.transaction_fee_amount])) := by
  refine ⟨?_, ?_, ?_⟩
  · intro j hj hd hm
    rw [askUser_sign_eq]
    simp only [askUserSign]
    rw [signLoop_first_deny p s.outputs 0 j hj (by simpa using hd)
      (by intro m hma; simpa using hm m hma)]
  · intro h hne hfee
    rw [askUser_sign_eq]
    simp only [askUserSign]
    rw [signLoop_all_accept p s.outputs 0 hne (by intro j hj; simpa using h j hj)]
    simp [hfee]
  · intro h hne hfee
    rw [askUser_sign_eq]
    simp only [askUserSign]
    rw [signLoop_all_accept p s.outputs 0 hne (by intro j hj; simpa using h j hj)]
    simp [hfee]

/-- Concrete instance of the sign-transaction dialogue: two outputs and a
fee, all accepted. -/
theorem askUser_sign_correct_witness :
    askUser ASKUSER_SIGN_TRANSACTION
      ⟨[("1.5", "addrA"), ("2.5", "addrB")], true, "0.1"⟩ (fun _ => false) =
      (some 0, [Prompt.output "1.5" "addrA", Prompt.output "2.5" "addrB",
                Prompt.fee "0.1"]) := by
  have h := (askUser_sign_correct
      ⟨[("1.5", "addrA"), ("2.5", "addrB")], true, "0.1"⟩ (fun _ => false)
      (by decide)).2.2 (fun j hj => rfl) (by decide) rfl
  simpa [outputPrompts] using h

/-- Behaviour of the backup display loop: the press counter never decreases;
on cancellation the last consumed press is a cancel and all earlier consumed
presses were accepts; on completion every consumed press was an accept. -/
theorem backupLoop_spec (p cend : Nat → Bool) :
    ∀ (l : List Nat) (k : Nat),
      k ≤ (backupLoop p cend k l).2 ∧
      ((backupLoop p cend k l).1 = true →
        k < (backupLoop p cend k l).2 ∧
        p ((backupLoop p cend k l).2 - 1) = true ∧
        ∀ j, k ≤ j → j + 1 < (backupLoop p cend k l).2 → p j = false) ∧
      ((backupLoop p cend k l).1 = false →
        ∀ j, k ≤ j → j < (backupLoop p cend k l).2 → p j = false) := by
  intro l
  induction l with
  | nil =>
      intro k
      refine ⟨Nat.le_refl k, ?_, ?_⟩
      · intro ht; simp [backupLoop] at ht
      · intro _ j hj hj2
        simp [backupLoop] at hj2
        omega
  | cons i rest ih =>
      intro k
      cases hc : cend i with
      | false =>
          have hstep : backupLoop p cend k (i :: rest) =
              backupLoop p cend k rest := by
            simp [backupLoop, hc]
          rw [hstep]
          exact ih k
      | true =>
          cases hp : p k with
          | true =>
              have hstep : backupLoop p cend k (i :: rest) = (true, k + 1) := by
                simp [backupLoop, hc, hp]
              rw [hstep]
              refine ⟨by omega, ?_, ?_⟩
              · intro _
                refine ⟨by omega, by simpa using hp, ?_⟩
                intro j hj hj2
                omega
              · intro hf; simp at hf
          | false =>
              have hstep : backupLoop p cend k (i :: rest) =
                  backupLoop p cend (k + 1) rest := by
                simp [backupLoop, hc, hp]
              rw [hstep]
              obtain ⟨ihle, ihtrue, ihfalse⟩ := ih (k + 1)
              refine ⟨by omega, ?_, ?_⟩
              · intro ht
                obtain ⟨h1, h2, h3⟩ := ihtrue ht
                refine ⟨by omega, h2, ?_⟩
                intro j hj hj2
                rcases Nat.eq_or_lt_of_le hj with heq | hlt
                · simpa [heq] using hp
                · exact h3 j (by omega) hj2
              · intro hf j hj hj2
                rcases Nat.eq_or_lt_of_le hj with heq | hlt
                · simpa [heq] using hp
                · exact ihfalse hf j (by omega) hj2

/-- Claim C6: writeBackupSeed rejects any destination device other than 0
with return value 1, showing no prompt; with device 0, it returns 0 exactly
when the user accepted every confirmation prompt shown, and 2 exactly when
the user cancelled at one of them. -/
theorem writeBackupSeed_correct (seed : Nat → Nat) (is_encrypted : Bool)
    (destination_device : Nat) (p cend : Nat → Bool) :
    (destination_device ≠ 0 →
      writeBackupSeed seed is_encrypted destination_device p cend = (1, 0)) ∧
    ((writeBackupSeed seed is_encrypted 0 p cend).1 = 0 ↔
      ∀ j, j < (writeBackupSeed seed is_encrypted 0 p cend).2 → p j = false) ∧
    ((writeBackupSeed seed is_encrypted 0 p cend).1 = 2 ↔
      ∃ j, j < (writeBackupSeed seed is_encrypted 0 p cend).2 ∧ p j = true) := by
  refine ⟨?_, ?_⟩
  · intro hd
    simp [writeBackupSeed, hd]
  · cases hp0 : p 0 with
    | true =>
        have hw : writeBackupSeed seed is_encrypted 0 p cend = (2, 1) := by
          simp [writeBackupSeed, hp0]
        rw [hw]
        refine ⟨⟨fun h => absurd h (by decide), fun hall => ?_⟩,
                ⟨fun _ => ⟨0, by decide, hp0⟩, fun _ => rfl⟩⟩
        have h0 := hall 0 (by decide)
        simp [hp0] at h0
    | false =>
        obtain ⟨hle, htrue, hfalse⟩ :=
          backupLoop_spec p cend (List.range SEED_LENGTH) 1
        cases hlr : (backupLoop p cend 1 (List.range SEED_LENGTH)).1 with
        | true =>
            obtain ⟨h1, h2, h3⟩ := htrue hlr
            have hw : writeBackupSeed seed is_encrypted 0 p cend =
                (2, (backupLoop p cend 1 (List.range SEED_LENGTH)).2) := by
              simp [writeBackupSeed, hp0, hlr]
            rw [hw]
            have hwit : (backupLoop p cend 1 (List.range SEED_LENGTH)).2 - 1 <
                (backupLoop p cend 1 (List.range SEED_LENGTH)).2 :=
              Nat.sub_lt (by omega) Nat.one_pos
            refine ⟨⟨fun h => absurd h (by simp), fun hall => ?_⟩,
                    ⟨fun _ => ⟨(backupLoop p cend 1 (List.range SEED_LENGTH)).2 - 1,
                        hwit, h2⟩,
                     fun _ => rfl⟩⟩
            have hbad := hall _ hwit
            simp [h2] at hbad
        | false =>
            have hall : ∀ j,
                j < (backupLoop p cend 1 (List.range SEED_LENGTH)).2 →
                p j = false := by
              intro j hj
              cases Nat.eq_zero_or_pos j with
              | inl h0 => simpa [h0] using hp0
              | inr hpos => exact hfalse hlr j (by omega) hj
            cases hpk : p (backupLoop p cend 1 (List.range SEED_LENGTH)).2 with
            | true =>
                have hw : writeBackupSeed seed is_encrypted 0 p cend =
                    (2, (backupLoop p cend 1 (List.range SEED_LENGTH)).2 + 1) := by
                  simp [writeBackupSeed, hp0, hlr, hpk]
                rw [hw]
                refine ⟨⟨fun h => absurd h (by simp), fun hall2 => ?_⟩,
                        ⟨fun _ => ⟨(backupLoop p cend 1 (List.range SEED_LENGTH)).2,
                            Nat.lt_succ_self _, hpk⟩,
                         fun _ => rfl⟩⟩
                have hbad := hall2 _ (Nat.lt_succ_self
                  (backupLoop p cend 1 (List.range SEED_LENGTH)).2)
                simp [hpk] at hbad
            | false =>
                have hw : writeBackupSeed seed is_encrypted 0 p cend =
                    (0, (backupLoop p cend 1 (List.range SEED_LENGTH)).2 + 1) := by
                  simp [writeBackupSeed, hp0, hlr, hpk]
                rw [hw]
                refine ⟨⟨fun _ => ?_, fun _ => rfl⟩,
                        ⟨fun h => absurd h (by simp), fun hex => ?_⟩⟩
                · intro j hj
                  rcases Nat.lt_succ_iff_lt_or_eq.mp hj with hlt | heq
                  · exact hall j hlt
                  · simpa [heq] using hpk
                · obtain ⟨j, hj, hpj⟩ := hex
                  rcases Nat.lt_succ_iff_lt_or_eq.mp hj with hlt | heq
                  · exact absurd hpj (by simp [hall j hlt])
                  · exact absurd hpj (by simp [heq, hpk])

/-- Concrete instance of the device check in writeBackupSeed. -/
theorem writeBackupSeed_correct_witness :
    writeBackupSeed (fun _ => 0) true 5 (fun _ => false) (fun _ => false) =
      (1, 0) :=
  (writeBackupSeed_correct (fun _ => 0) true 5 (fun _ => false)
    (fun _ => false)).1 (by decide)

/-- Running an appended step list runs the two parts in sequence. -/
theorem runSteps_append (s : NVState) (l1 l2 : List UpdateStep) :
    runSteps s (l1 ++ l2) = runSteps (runSteps s l1) l2 := by
  induction l1 generalizing s with
  | nil => rfl
  | cons st rest ih =>
      simp only [List.cons_append, runSteps]
      exact ih _

/-- Staging writes never touch any record slot. -/
theorem runSteps_mapWrites_slots (f : Nat → Nat) :
    ∀ (js : List Nat) (s : NVState),
      (runSteps s (js.map
        (fun j => UpdateStep.writeStagingByte j (f j)))).slots = s.slots := by
  intro js
  induction js with
  | nil => intro s; rfl
  | cons a rest ih =>
      intro s
      simp only [List.map_cons, runSteps]
      rw [ih]
      rfl

/-- Running a verification step alone changes nothing. -/
theorem runSteps_verify_only (x : NVState) :
    runSteps x [UpdateStep.verifyStaging] = x := rfl

/-- Running the verify-then-copy tail amounts to the single copy step. -/
theorem runSteps_verify_copy (x : NVState) (i : Nat) :
    runSteps x [UpdateStep.verifyStaging, UpdateStep.copyStagingToSlot i] =
      applyStep x (UpdateStep.copyStagingToSlot i) := rfl

/-- After writing byte f j at every position j of js, the staging area holds
f at every position of js and is untouched elsewhere. -/
theorem runSteps_mapWrites_staging (f : Nat → Nat) :
    ∀ (js : List Nat) (s : NVState) (j : Nat),
      (runSteps s (js.map
        (fun j2 => UpdateStep.writeStagingByte j2 (f j2)))).staging j =
        if j ∈ js then f j else s.staging j := by
  intro js
  induction js with
  | nil => intro s j; simp [runSteps]
  | cons a rest ih =>
      intro s j
      simp only [List.map_cons, runSteps]
      rw [ih]
      by_cases hr : j ∈ rest
      · simp [hr]
      · by_cases ha : j = a
        · subst ha
          simp [hr, applyStep]
        · simp [hr, ha, applyStep]

/-- Any crash prefix that stops at or before the verification step leaves
every record slot exactly as it was. -/
theorem stagedUpdateSteps_take_le (i : Nat) (newRec : Nat → Nat) (k : Nat)
    (hk : k ≤ WALLET_RECORD_LENGTH + 1) (s : NVState) :
    (runSteps s ((stagedUpdateSteps i newRec).take k)).slots = s.slots := by
  rcases Nat.lt_or_ge k (WALLET_RECORD_LENGTH + 1) with hlt | hge
  · have hk2 : k ≤ WALLET_RECORD_LENGTH := by omega
    have hk3 : k - (stagingWrites newRec).length = 0 := by
      simp [stagingWrites]
      omega
    have htake : (stagedUpdateSteps i newRec).take k =
        ((List.range WALLET_RECORD_LENGTH).take k).map
          (fun j => UpdateStep.writeStagingByte j (newRec j)) := by
      rw [stagedUpdateSteps, List.take_append_eq_append_take, hk3]
      simp [stagingWrites, List.map_take]
    rw [htake, runSteps_mapWrites_slots]
  · have hk3 : k = WALLET_RECORD_LENGTH + 1 := by omega
    subst hk3
    have hlen : (stagingWrites newRec).length = WALLET_RECORD_LENGTH := by
      simp [stagingWrites]
    have hsub : WALLET_RECORD_LENGTH + 1 - WALLET_RECORD_LENGTH = 1 := by
      omega
    have htake : (stagedUpdateSteps i newRec).take (WALLET_RECORD_LENGTH + 1) =
        stagingWrites newRec ++ [UpdateStep.verifyStaging] := by
      rw [stagedUpdateSteps, List.take_append_eq_append_take, hlen,
        List.take_of_length_le (hlen.le.trans (Nat.le_succ _)), hsub]
      rfl
    rw [htake, runSteps_append, runSteps_verify_only]
    simp only [stagingWrites]
    rw [runSteps_mapWrites_slots]

/-- Running the complete staged update: slot i afterwards holds the staging
contents, which on every in-record position is the new record byte; every
other slot is untouched. -/
theorem stagedUpdateSteps_run_full (i : Nat) (newRec : Nat → Nat)
    (s : NVState) :
    (runSteps s (stagedUpdateSteps i newRec)).slots = fun m =>
      if m = i then (runSteps s (stagingWrites newRec)).staging
      else s.slots m := by
  rw [stagedUpdateSteps, runSteps_append, runSteps_verify_copy]
  funext m
  by_cases hm : m = i
  · simp [applyStep, hm]
  · simp [applyStep, hm]
    simp only [stagingWrites]
    rw [runSteps_mapWrites_slots]

/-- Claim C1: under the staged-commit protocol the final record slot is
atomic across power loss.  For every crash prefix of the update step list,
slot i holds either the complete old record or the complete new record on
every in-record position, never a mixture; the completed update leaves the
complete new record in slot i; and no crash prefix ever touches any other
slot. -/
theorem staged_update_atomic (s : NVState) (i : Nat) (newRec : Nat → Nat)
    (k : Nat) :
    ((∀ j, j < WALLET_RECORD_LENGTH →
        (runSteps s ((stagedUpdateSteps i newRec).take k)).slots i j =
          s.slots i j) ∨
     (∀ j, j < WALLET_RECORD_LENGTH →
        (runSteps s ((stagedUpdateSteps i newRec).take k)).slots i j =
          newRec j)) ∧
    (∀ j, j < WALLET_RECORD_LENGTH →
      (runSteps s (stagedUpdateSteps i newRec)).slots i j = newRec j) ∧
    (∀ i2, i2 ≠ i → ∀ j,
      (runSteps s ((stagedUpdateSteps i newRec).take k)).slots i2 j =
        s.slots i2 j) := by
  have hlen : (stagedUpdateSteps i newRec).length = WALLET_RECORD_LENGTH + 2 := by
    simp [stagedUpdateSteps, stagingWrites]
  have hfull : ∀ j, j < WALLET_RECORD_LENGTH →
      (runSteps s (stagedUpdateSteps i newRec)).slots i j = newRec j := by
    intro j hj
    have h2 : (runSteps s (stagingWrites newRec)).staging j = newRec j := by
      simp only [stagingWrites]
      rw [runSteps_mapWrites_staging]
      simp [hj]
    rw [stagedUpdateSteps_run_full]
    simp [h2]
  refine ⟨?_, hfull, ?_⟩
  · rcases le_or_lt k (WALLET_RECORD_LENGTH + 1) with hk | hk
    · left
      intro j _
      rw [stagedUpdateSteps_take_le i newRec k hk s]
    · right
      intro j hj
      have htake : (stagedUpdateSteps i newRec).take k =
          stagedUpdateSteps i newRec :=
        List.take_of_length_le (by omega)
      rw [htake]
      exact hfull j hj
  · intro i2 hne j
    rcases le_or_lt k (WALLET_RECORD_LENGTH + 1) with hk | hk
    · rw [stagedUpdateSteps_take_le i newRec k hk s]
    · have htake : (stagedUpdateSteps i newRec).take k =
          stagedUpdateSteps i newRec :=
        List.take_of_length_le (by omega)
      rw [htake, stagedUpdateSteps_run_full]
      simp [hne]

/-- Concrete instance of crash atomicity: a crash after 80 of the 162 update
steps leaves byte 3 of slot 2 either old or new. -/
theorem staged_update_atomic_witness :
    ((runSteps ⟨fun _ => 0, fun _ _ => 7⟩
        ((stagedUpdateSteps 2 (fun j => j + 1)).take 80)).slots 2 3 = 7) ∨
    ((runSteps ⟨fun _ => 0, fun _ _ => 7⟩
        ((stagedUpdateSteps 2 (fun j => j + 1)).take 80)).slots 2 3 = 4) :=
  Or.imp (fun h => h 3 (by decide)) (fun h => h 3 (by decide))
    (staged_update_atomic ⟨fun _ => 0, fun _ _ => 7⟩ 2 (fun j => j + 1) 80).1

end HWallet
